import Mathlib

/-!
# Verification of the multi-segment video annotation engine

Shallow embedding of the TypeScript sources of `video-annotation-counts`:
the time codec (`formatTime` / `parseTime` in `src/utils.ts`), the segment
registry operations (`VideoUpload.tsx`), the position mapper
(`findVideoAtTime`), the annotation store operations (`App.tsx`,
`TimestampTable.tsx`) and the analytics histogram (`Analysis.tsx`).

JavaScript numbers are modelled as `Option ℚ`, where `none` plays the role
of `NaN` and `some q` a finite numeric value; the arithmetic helpers
`jsAdd`, `jsMul`, `jsDiv`, `jsMod` propagate `NaN` exactly as JavaScript
arithmetic does on the values arising in this code base (no infinities
arise: the only divisors are the constants 3600 and 60).
-/

/-! ## JavaScript number model -/

/-- A JavaScript number: `none` is `NaN`, `some q` a finite value. -/
def JsNum : Type := Option ℚ

instance : DecidableEq JsNum := by unfold JsNum; infer_instance

/-- JavaScript `+` on numbers (`NaN` propagates). -/
def jsAdd : JsNum → JsNum → JsNum
  | some a, some b => some (a + b)
  | _, _ => none

/-- JavaScript `*` on numbers (`NaN` propagates). -/
def jsMul : JsNum → JsNum → JsNum
  | some a, some b => some (a * b)
  | _, _ => none

/-- JavaScript `-` on numbers (`NaN` propagates). -/
def jsSub : JsNum → JsNum → JsNum
  | some a, some b => some (a - b)
  | _, _ => none

/-- Truncation toward zero, as ECMAScript division/remainder uses. -/
def ratTrunc (q : ℚ) : ℤ := if 0 ≤ q then ⌊q⌋ else -⌊-q⌋

/-- JavaScript `/`. Division by zero yields `±Infinity` in JavaScript; that
case never occurs in this code base (the only divisors are 3600 and 60), and
is mapped to `none` here. -/
def jsDiv : JsNum → JsNum → JsNum
  | some a, some b => if b = 0 then none else some (a / b)
  | _, _ => none

/-- JavaScript `%` (floating remainder: `a - b * trunc (a / b)`, sign of `a`);
`x % 0` is `NaN` in JavaScript. -/
def jsMod : JsNum → JsNum → JsNum
  | some a, some b => if b = 0 then none else some (a - b * (ratTrunc (a / b) : ℚ))
  | _, _ => none

/-- JavaScript `Math.floor` (`Math.floor NaN = NaN`). -/
def jsFloor (x : JsNum) : Option ℤ := x.map Int.floor

/-! ## Decimal digit strings (ECMAScript ToString / ToNumber fragment) -/

/-- Numeric value of a decimal digit character. -/
def digitVal (c : Char) : ℕ := c.toNat - 48

/-- Value of a big-endian list of decimal digit characters. -/
def decimalVal (cs : List Char) : ℕ := cs.foldl (fun a c => 10 * a + digitVal c) 0

/-- Fuel-driven big-endian decimal expansion, written with structural
recursion so that concrete values reduce inside the kernel. -/
def natDecAux : ℕ → ℕ → List Char
  | 0, _ => []
  | fuel + 1, n =>
      if n = 0 then [] else natDecAux fuel (n / 10) ++ [Nat.digitChar (n % 10)]

/-- Big-endian decimal digit characters of a natural number. -/
def natDecChars (n : ℕ) : List Char := natDecAux n n

/-- ECMAScript `Number.prototype.toString` on a non-negative integer. -/
def natToString (n : ℕ) : String := if n = 0 then "0" else String.mk (natDecChars n)

/-- ECMAScript `Number.prototype.toString` on an integer-valued number
(`NaN.toString()` is `"NaN"`). -/
def jsIntToString : Option ℤ → String
  | none => "NaN"
  | some n => if n < 0 then "-" ++ natToString n.natAbs else natToString n.natAbs

/-- ECMAScript `String.prototype.padStart(2, "0")`. -/
def padStart2 (s : String) : String :=
  if 2 ≤ s.length then s else String.mk (List.replicate (2 - s.length) '0') ++ s

/-- A fragment of ECMAScript `Number(string)`.  It agrees with the source
conversion exactly on: the empty string (`0`), optionally `-`-signed
nonempty runs of decimal digits (their integer value), and strings matching
no production of the `StringNumericLiteral` grammar at all — such as
nonempty runs of lowercase letters (`NaN`, modelled as `none`).  Other
JS-numeric shapes (`+` signs, whitespace padding, fractional, hexadecimal
and exponent numerals, `Infinity`) are conservatively mapped to `none`;
every theorem below quantifies only inside the exact fragment. -/
def jsNumber (s : String) : JsNum :=
  match s.data with
  | [] => some 0
  | '-' :: rest =>
      if rest ≠ [] ∧ rest.all Char.isDigit then some (-(decimalVal rest : ℚ)) else none
  | cs =>
      if cs.all Char.isDigit then some ((decimalVal cs : ℚ)) else none

/-- ECMAScript `String.prototype.split` with a one-character separator,
on the character list of the string. -/
def splitCh (sep : Char) : List Char → List (List Char)
  | [] => [[]]
  | c :: cs =>
      if c = sep then [] :: splitCh sep cs
      else
        match splitCh sep cs with
        | g :: gs => (c :: g) :: gs
        | [] => [[c]]

/-- ECMAScript `String.prototype.split` with a one-character separator. -/
def jsSplit (sep : Char) (s : String) : List String :=
  (splitCh sep s.data).map String.mk

/-! ## Time codec (`formatTime` / `parseTime`, `src/utils.ts`) -/

/-- `src/utils.ts` `formatTime`: convert seconds to `"HH:MM:SS"`, flooring
each field, zero-padding to two characters; the hour field is unbounded. -/
def formatTime (seconds : JsNum) : String :=
  let hours := jsFloor (jsDiv seconds (some 3600))
  let minutes := jsFloor (jsDiv (jsMod seconds (some 3600)) (some 60))
  let secs := jsFloor (jsMod seconds (some 60))
  padStart2 (jsIntToString hours) ++ ":" ++ padStart2 (jsIntToString minutes)
    ++ ":" ++ padStart2 (jsIntToString secs)

/-- `src/utils.ts` `parseTime`: split on `":"`, convert each field with
`Number`, return `0` unless there are exactly three fields, else
`h * 3600 + m * 60 + s` (which is `NaN` when any field is non-numeric). -/
def parseTime (timeStr : String) : JsNum :=
  let parts := (jsSplit ':' timeStr).map jsNumber
  if parts.length ≠ 3 then some 0
  else jsAdd (jsAdd (jsMul (parts.getD 0 none) (some 3600))
    (jsMul (parts.getD 1 none) (some 60))) (parts.getD 2 none)

/-! ## Data model (`src/types.ts`)

Identifiers (`generateId()` strings) are modelled as abstract natural-number
tokens; purely presentational fields (`color`, `file`, `url`) are omitted. -/

/-- A video segment (`VideoFile` in `src/types.ts`). -/
structure VideoFile where
  id : ℕ
  name : String
  duration : ℚ
  startTime : String
  deriving DecidableEq, Repr, Inhabited

/-- An event-type catalog entry (`EventType` in `src/types.ts`); `count` is a
JavaScript number holding an integer. -/
structure EventType where
  id : ℕ
  name : String
  count : ℤ
  deriving DecidableEq, Repr

/-- A recorded annotation (`Timestamp` in `src/types.ts`). -/
structure Timestamp where
  id : ℕ
  eventId : ℕ
  eventName : String
  atSecondFirst : ℚ
  atSecondCurrent : ℚ
  timeHHMMSS : String
  videoId : ℕ
  videoName : String
  note : String
  deriving DecidableEq, Repr

/-- Playback state (`VideoState` in `src/types.ts`). -/
structure VideoState where
  currentTime : ℚ
  currentVideoIndex : ℕ
  currentVideoTime : ℚ
  isPlaying : Bool
  isMuted : Bool
  playbackRate : ℚ
  totalDuration : ℚ
  deriving DecidableEq, Repr

/-! ## Position mapper (`src/utils.ts`) -/

/-- `src/utils.ts` `calculateTotalDuration`. -/
def calculateTotalDuration (videos : List VideoFile) : ℚ :=
  videos.foldl (fun total video => total + video.duration) 0

/-- The accumulation loop of `findVideoAtTime`: scan the remaining videos with
the accumulated duration so far and the current index; `none` means the loop
fell through. -/
def findVideoAtTimeAux (totalSeconds : ℚ) :
    List VideoFile → ℚ → ℕ → Option (ℕ × ℚ)
  | [], _, _ => none
  | video :: rest, accumulatedTime, i =>
      if totalSeconds ≤ accumulatedTime + video.duration then
        some (i, totalSeconds - accumulatedTime)
      else findVideoAtTimeAux totalSeconds rest (accumulatedTime + video.duration) (i + 1)

/-- `src/utils.ts` `findVideoAtTime`: first video whose cumulative end reaches
the target, else the last video at its full duration (`Math.max(0, length-1)`
and duration `0` on an empty list). -/
def findVideoAtTime (videos : List VideoFile) (totalSeconds : ℚ) : ℕ × ℚ :=
  match findVideoAtTimeAux totalSeconds videos 0 0 with
  | some r => r
  | none =>
      (videos.length - 1,
       match videos.getLast? with
       | some v => v.duration
       | none => 0)

/-- `src/utils.ts` `calculateRealWorldTime`: first segment's parsed start plus
the global offset, formatted; `"00:00:00"` on an empty list. -/
def calculateRealWorldTime (videos : List VideoFile) (currentTimeSeconds : ℚ) : String :=
  match videos with
  | [] => "00:00:00"
  | firstVideo :: _ =>
      formatTime (jsAdd (parseTime firstVideo.startTime) (some currentTimeSeconds))

/-! ## Annotation store operations (`src/App.tsx`, `TimestampTable.tsx`) -/

/-- Comparator order used by every `timestamps.sort((a, b) => a.atSecondFirst -
b.atSecondFirst)` call. -/
def tsLE (a b : Timestamp) : Prop := a.atSecondFirst ≤ b.atSecondFirst

instance : DecidableRel tsLE := fun a b =>
  inferInstanceAs (Decidable (a.atSecondFirst ≤ b.atSecondFirst))

instance : IsTotal Timestamp tsLE := ⟨fun a b => le_total a.atSecondFirst b.atSecondFirst⟩

instance : IsTrans Timestamp tsLE := ⟨fun _ _ _ h h' => le_trans h h'⟩

/-- ECMAScript `Array.prototype.sort` with the comparator `(a, b) =>
a.atSecondFirst - b.atSecondFirst`.  `Array.prototype.sort` is specified to be
stable, and a stable sort for a consistent comparator is extensionally unique;
it is modelled by the stable insertion sort. -/
def jsSortTimestamps (l : List Timestamp) : List Timestamp := l.insertionSort tsLE

/-- `src/App.tsx` `handleEventMark` (also inlined for keys 1–5 in
`handleKeyPress`): record an annotation at the current playback position and
increment the event type's count.  `freshId` stands for the random
`generateId()` result; all guard clauses (`videos.length === 0`, missing
current video, unknown event type) return the state unchanged. -/
def handleEventMark (videos : List VideoFile) (videoState : VideoState)
    (timestamps : List Timestamp) (eventTypes : List EventType)
    (eventId : ℕ) (freshId : ℕ) : List Timestamp × List EventType :=
  if videos.length = 0 then (timestamps, eventTypes)
  else
    match videos.get? videoState.currentVideoIndex with
    | none => (timestamps, eventTypes)
    | some currentVideo =>
      match eventTypes.find? (fun e => e.id == eventId) with
      | none => (timestamps, eventTypes)
      | some eventType =>
        let newTimestamp : Timestamp :=
          { id := freshId
            eventId := eventId
            eventName := eventType.name
            atSecondFirst := videoState.currentTime
            atSecondCurrent := videoState.currentVideoTime
            timeHHMMSS := calculateRealWorldTime videos videoState.currentTime
            videoId := currentVideo.id
            videoName := currentVideo.name
            note := "" }
        (jsSortTimestamps (timestamps ++ [newTimestamp]),
         eventTypes.map (fun e =>
           if e.id == eventId then { e with count := e.count + 1 } else e))

/-- `src/App.tsx` `handleKeyPress`, `j`/`l`/`ArrowLeft`/`ArrowRight` cases:
clamp `currentTime + seekAmount` into `[0, totalDuration]` and set
`isPlaying: false`. -/
def handleSeekKey (videoState : VideoState) (seekAmount : ℚ) : VideoState :=
  let newTime := max 0 (min videoState.totalDuration (videoState.currentTime + seekAmount))
  { videoState with currentTime := newTime, isPlaying := false }

/-- The `timestamps.reduce` call of the `Backspace` case: the first entry
whose offset is strictly closer to `currentTime` than every earlier one. -/
def closestTimestamp (t0 : Timestamp) (rest : List Timestamp) (currentTime : ℚ) :
    Timestamp :=
  rest.foldl (fun prev curr =>
    if |curr.atSecondFirst - currentTime| < |prev.atSecondFirst - currentTime|
    then curr else prev) t0

/-- `src/App.tsx` `handleKeyPress`, `Backspace` case: with a non-empty store,
find the entry closest to the current time and — iff the user confirms —
remove it and decrement its event type's count, floored at zero. -/
def handleBackspaceDelete (timestamps : List Timestamp) (eventTypes : List EventType)
    (currentTime : ℚ) (confirm : Bool) : List Timestamp × List EventType :=
  match timestamps with
  | [] => (timestamps, eventTypes)
  | t0 :: rest =>
    let closest := closestTimestamp t0 rest currentTime
    if confirm then
      (timestamps.filter (fun t => t.id != closest.id),
       eventTypes.map (fun e =>
         if e.id == closest.eventId then { e with count := max 0 (e.count - 1) } else e))
    else (timestamps, eventTypes)

/-- `src/components/TimestampTable.tsx` `handleDeleteTimestamp`: iff the user
confirms, remove the entry; the component holds no event-types setter, so the
event-type catalog (and with it every count) is left untouched. -/
def handleDeleteTimestamp (timestamps : List Timestamp) (timestampId : ℕ)
    (confirm : Bool) : List Timestamp :=
  if confirm then timestamps.filter (fun t => t.id != timestampId) else timestamps

/-- `src/components/TimestampTable.tsx` `handleEventTypeChange`: reassign an
entry to a new event type, denormalizing the new name; the event-type catalog
(and with it every count) is left untouched. -/
def handleEventTypeChange (timestamps : List Timestamp) (eventTypes : List EventType)
    (timestampId : ℕ) (newEventId : ℕ) : List Timestamp :=
  match eventTypes.find? (fun e => e.id == newEventId) with
  | none => timestamps
  | some eventType =>
      timestamps.map (fun t =>
        if t.id == timestampId then
          { t with eventId := newEventId, eventName := eventType.name }
        else t)

/-- Count accuracy: each event type's `count` equals the number of annotations
currently referencing its identity. -/
def countsAccurate (timestamps : List Timestamp) (eventTypes : List EventType) : Prop :=
  ∀ e ∈ eventTypes,
    e.count = ((timestamps.filter (fun t => t.eventId == e.id)).length : ℤ)

/-- One user-level annotation-store operation, with the ambient data it reads
captured as parameters. -/
inductive AnnOp where
  | record (videos : List VideoFile) (videoState : VideoState) (eventId : ℕ) (freshId : ℕ)
  | tableDelete (timestampId : ℕ) (confirm : Bool)
  | backspaceDelete (currentTime : ℚ) (confirm : Bool)

/-- Apply one annotation-store operation to the `(timestamps, eventTypes)`
state. -/
def applyAnnOp (st : List Timestamp × List EventType) :
    AnnOp → List Timestamp × List EventType
  | .record videos videoState eventId freshId =>
      handleEventMark videos videoState st.1 st.2 eventId freshId
  | .tableDelete timestampId confirm =>
      (handleDeleteTimestamp st.1 timestampId confirm, st.2)
  | .backspaceDelete currentTime confirm =>
      handleBackspaceDelete st.1 st.2 currentTime confirm

/-- Apply a sequence of annotation-store operations in order. -/
def applyAnnOps (st : List Timestamp × List EventType) (ops : List AnnOp) :
    List Timestamp × List EventType :=
  ops.foldl applyAnnOp st

/-! ## Segment registry operations (`src/components/VideoUpload.tsx`) -/

/-- `src/components/VideoUpload.tsx` `handleRemoveVideo`: refuse (`none`, no
mutation) when any annotation references the video; otherwise drop it and
rebuild the list with `updatedVideos.map((video, index) => ...)`, where each
non-first entry's start time is recomputed from `updatedVideos[index - 1]` —
the element of the list as it was *before* this recalculation pass. -/
def handleRemoveVideo (videos : List VideoFile) (timestamps : List Timestamp)
    (videoId : ℕ) : Option (List VideoFile) :=
  if timestamps.any (fun t => t.videoId == videoId) then none
  else
    let updatedVideos := videos.filter (fun v => v.id != videoId)
    some (updatedVideos.enum.map (fun p =>
      match p with
      | (0, video) => video
      | (index, video) =>
          let prevVideo := (updatedVideos.get? (index - 1)).getD video
          { video with
              startTime :=
                formatTime (jsAdd (parseTime prevVideo.startTime) (some prevVideo.duration)) }))

/-- One iteration of the `for (let i = videoIndex + 1; ...)` recalculation
loop of `handleStartTimeChange`: overwrite entry `i`'s start time from the
*current* entry `i - 1` (in-place sequential update). -/
def recalcStep (l : List VideoFile) (i : ℕ) : List VideoFile :=
  match l.get? (i - 1), l.get? i with
  | some prevVideo, some video =>
      l.set i
        { video with
            startTime :=
              formatTime (jsAdd (parseTime prevVideo.startTime) (some prevVideo.duration)) }
  | _, _ => l

/-- `src/components/VideoUpload.tsx` `handleStartTimeChange`: no lookup hit —
no change; otherwise overwrite the segment's start time with the raw input
string (no validation), walk forward recomputing every subsequent start time,
and refresh every annotation's derived wall-clock display against the updated
registry. -/
def handleStartTimeChange (videos : List VideoFile) (timestamps : List Timestamp)
    (videoId : ℕ) (newStartTime : String) : List VideoFile × List Timestamp :=
  match videos.findIdx? (fun v => v.id == videoId) with
  | none => (videos, timestamps)
  | some videoIndex =>
    let updatedVideos :=
      match videos.get? videoIndex with
      | some video => videos.set videoIndex { video with startTime := newStartTime }
      | none => videos
    let updatedVideos :=
      (List.range' (videoIndex + 1) (updatedVideos.length - (videoIndex + 1))).foldl
        recalcStep updatedVideos
    (updatedVideos,
     if timestamps.length ≠ 0 then
       timestamps.map (fun t =>
         { t with timeHHMMSS := calculateRealWorldTime updatedVideos t.atSecondFirst })
     else timestamps)

/-! ## Analytics histogram (`Analysis.tsx`) -/

/-- One histogram bin (`HistogramBin` in `Analysis.tsx`). -/
structure HistogramBin where
  startTime : ℚ
  endTime : ℚ
  count : ℕ
  label : String
  deriving DecidableEq, Repr

/-- `Analysis.tsx` `histogramData`: `ceil((end - start) / (minutes * 60))`
consecutive bins from `start`, the last truncated at `end`; each bin counts
the annotations of the selected type with offset in `[binStart, binEnd)`.
(With a zero bin size JavaScript would loop on `Infinity`; the UI constrains
the bin size to at least one minute, and the rational model's `x / 0 = 0`
yields zero bins instead — all theorems assume a positive bin size.) -/
def histogramData (timestamps : List Timestamp) (histogramTimeStart : ℚ)
    (histogramTimeEnd : ℚ) (binSizeMinutes : ℚ) (selectedEventId : ℕ) :
    List HistogramBin :=
  let binSizeSeconds := binSizeMinutes * 60
  let timeRange := histogramTimeEnd - histogramTimeStart
  let numBins := ⌈timeRange / binSizeSeconds⌉
  (List.range numBins.toNat).map (fun (i : ℕ) =>
    let startTime := histogramTimeStart + ((i : ℚ) * binSizeSeconds)
    let endTime := min (histogramTimeStart + (((i : ℚ) + 1) * binSizeSeconds)) histogramTimeEnd
    let label := formatTime (some startTime) ++ " - " ++ formatTime (some endTime)
    let count := (timestamps.filter (fun t =>
      t.eventId == selectedEventId && decide (startTime ≤ t.atSecondFirst)
        && decide (t.atSecondFirst < endTime))).length
    { startTime := startTime, endTime := endTime, count := count, label := label })

/-! ## Derived definitions used to state the claims -/

/-- Sum of the durations of the first `i` segments ("cumulative time before
segment `i`"). -/
def cumBefore (videos : List VideoFile) (i : ℕ) : ℚ :=
  ((videos.take i).map (fun v => v.duration)).sum

/-- The registry contiguity invariant: every segment's parsed real-world start
equals its predecessor's parsed start plus the predecessor's duration. -/
def contiguous (videos : List VideoFile) : Prop :=
  ∀ i, 0 < i → i < videos.length →
    parseTime ((videos.getD i default).startTime) =
      jsAdd (parseTime ((videos.getD (i - 1) default).startTime))
        (some ((videos.getD (i - 1) default).duration))

/-! ## Basic facts about the position mapper -/

theorem cumBefore_zero (videos : List VideoFile) : cumBefore videos 0 = 0 := by
  simp [cumBefore]

theorem cumBefore_cons_succ (v : VideoFile) (rest : List VideoFile) (n : ℕ) :
    cumBefore (v :: rest) (n + 1) = v.duration + cumBefore rest n := by
  simp [cumBefore]

theorem findVideoAtTimeAux_found (t : ℚ) :
    ∀ (l : List VideoFile) (acc : ℚ) (i k : ℕ),
      k < l.length →
      t ≤ acc + cumBefore l (k + 1) →
      (∀ j, j < k → acc + cumBefore l (j + 1) < t) →
      findVideoAtTimeAux t l acc i = some (i + k, t - (acc + cumBefore l k))
  | [], _, _, k, hk, _, _ => absurd hk (by simp)
  | v :: rest, acc, i, 0, _, hle, _ => by
      rw [findVideoAtTimeAux, if_pos (by simpa [cumBefore_cons_succ, cumBefore_zero] using hle)]
      simp [cumBefore_zero]
  | v :: rest, acc, i, k + 1, hk, hle, hlt => by
      have h0 : acc + v.duration < t := by
        have := hlt 0 (Nat.succ_pos k)
        simpa [cumBefore_cons_succ, cumBefore_zero] using this
      rw [findVideoAtTimeAux, if_neg (by linarith)]
      have ih := findVideoAtTimeAux_found t rest (acc + v.duration) (i + 1) k
        (by simpa using hk)
        (by rw [cumBefore_cons_succ] at hle; linarith)
        (fun j hj => by
          have := hlt (j + 1) (by omega)
          rw [cumBefore_cons_succ] at this; linarith)
      rw [ih]
      have harr : i + 1 + k = i + (k + 1) := by omega
      rw [harr, cumBefore_cons_succ]
      ring_nf

theorem findVideoAtTimeAux_none (t : ℚ) :
    ∀ (l : List VideoFile) (acc : ℚ) (i : ℕ),
      (∀ j, j < l.length → acc + cumBefore l (j + 1) < t) →
      findVideoAtTimeAux t l acc i = none
  | [], _, _, _ => rfl
  | v :: rest, acc, i, hlt => by
      have h0 : acc + v.duration < t := by
        have := hlt 0 (by simp)
        simpa [cumBefore_cons_succ, cumBefore_zero] using this
      rw [findVideoAtTimeAux, if_neg (by linarith)]
      exact findVideoAtTimeAux_none t rest (acc + v.duration) (i + 1) (fun j hj => by
        have := hlt (j + 1) (by simpa using hj)
        rw [cumBefore_cons_succ] at this; linarith)

theorem calculateTotalDuration_eq_cumBefore (videos : List VideoFile) :
    calculateTotalDuration videos = cumBefore videos videos.length := by
  have h : ∀ (l : List VideoFile) (a : ℚ),
      l.foldl (fun total video => total + video.duration) a = a + (l.map (fun v => v.duration)).sum := by
    intro l
    induction l with
    | nil => intro a; simp
    | cons v rest ih => intro a; simp [ih]; ring
  simp [calculateTotalDuration, cumBefore, h]

theorem cumBefore_le_total (videos : List VideoFile)
    (hd : ∀ v ∈ videos, 0 ≤ v.duration) (k : ℕ) (_hk : k ≤ videos.length) :
    cumBefore videos k ≤ cumBefore videos videos.length := by
  unfold cumBefore
  rw [List.take_length]
  conv_rhs => rw [← List.take_append_drop k videos]
  rw [List.map_append, List.sum_append]
  have : 0 ≤ ((videos.drop k).map (fun v => v.duration)).sum := by
    apply List.sum_nonneg
    intro a ha
    obtain ⟨v, hv, rfl⟩ := List.mem_map.mp ha
    exact hd v (List.drop_subset k videos hv)
  linarith

/-- C1.  `locate(globalSeconds)` (`findVideoAtTime`): on an empty registry it
returns `(0, 0)`; it selects the first segment whose cumulative end is ≥ the
target, at local offset target minus the cumulative duration before it; a
target beyond the total duration yields the last segment at its full
duration; and on the registry with durations `[100, 50, 200]`,
`locate 120 = (1, 20)` and `locate 500 = (2, 200)`. -/
theorem locate_first_cumulative_end :
    (∀ t : ℚ, findVideoAtTime [] t = (0, 0)) ∧
    (∀ (videos : List VideoFile) (t : ℚ) (i : ℕ),
      i < videos.length →
      t ≤ cumBefore videos (i + 1) →
      (∀ j, j < i → cumBefore videos (j + 1) < t) →
      findVideoAtTime videos t = (i, t - cumBefore videos i)) ∧
    (∀ (videos : List VideoFile) (t : ℚ) (hne : videos ≠ []),
      (∀ v ∈ videos, 0 ≤ v.duration) →
      calculateTotalDuration videos < t →
      findVideoAtTime videos t = (videos.length - 1, (videos.getLast hne).duration)) ∧
    findVideoAtTime
      [⟨1, "a", 100, "10:00:00"⟩, ⟨2, "b", 50, "10:01:40"⟩, ⟨3, "c", 200, "10:02:30"⟩]
      120 = (1, 20) ∧
    findVideoAtTime
      [⟨1, "a", 100, "10:00:00"⟩, ⟨2, "b", 50, "10:01:40"⟩, ⟨3, "c", 200, "10:02:30"⟩]
      500 = (2, 200) := by
  refine ⟨fun t => rfl, ?_, ?_,
    by norm_num [findVideoAtTime, findVideoAtTimeAux],
    by norm_num [findVideoAtTime, findVideoAtTimeAux]⟩
  · intro videos t i hi hle hlt
    have h := findVideoAtTimeAux_found t videos 0 0 i hi (by simpa using hle)
      (fun j hj => by simpa using hlt j hj)
    rw [findVideoAtTime, h]
    simp
  · intro videos t hne hd htot
    have h := findVideoAtTimeAux_none t videos 0 0 (fun j hj => by
      have hle := cumBefore_le_total videos hd (j + 1) (by omega)
      rw [calculateTotalDuration_eq_cumBefore] at htot
      simp only [zero_add]
      linarith)
    rw [findVideoAtTime, h, List.getLast?_eq_getLast videos hne]

theorem locate_first_cumulative_end_witness :
    findVideoAtTime
      [⟨1, "a", 100, "10:00:00"⟩, ⟨2, "b", 50, "10:01:40"⟩, ⟨3, "c", 200, "10:02:30"⟩]
      120 = (1, 20) := by
  have h := locate_first_cumulative_end.2.1
    [⟨1, "a", 100, "10:00:00"⟩, ⟨2, "b", 50, "10:01:40"⟩, ⟨3, "c", 200, "10:02:30"⟩]
    120 1 (by decide) (by norm_num [cumBefore])
    (fun j hj => by interval_cases j; norm_num [cumBefore])
  norm_num [cumBefore] at h
  exact h

/-! ## C7: the keyboard seek operation -/

/-- C7 counterexample: seeking while playing does *not* leave the play/pause
flag unchanged — the `j`/`l`/arrow handlers always set `isPlaying: false`. -/
theorem seek_changes_play_flag :
    (handleSeekKey ⟨0, 0, 0, true, true, 1, 100⟩ 1).isPlaying ≠
      (⟨0, 0, 0, true, true, 1, 100⟩ : VideoState).isPlaying := by
  simp [handleSeekKey]

/-- C7 (amended).  For every playback state with a non-negative total duration
and every seek amount, the keyboard seek clamps the resulting global position
into `[0, totalDuration]` and always sets the play/pause flag to paused
(`isPlaying = false`), regardless of the previous play state. -/
theorem seek_clamps_and_pauses (videoState : VideoState) (seekAmount : ℚ)
    (h : 0 ≤ videoState.totalDuration) :
    0 ≤ (handleSeekKey videoState seekAmount).currentTime ∧
    (handleSeekKey videoState seekAmount).currentTime ≤ videoState.totalDuration ∧
    (handleSeekKey videoState seekAmount).isPlaying = false := by
  refine ⟨le_max_left 0 _, ?_, rfl⟩
  exact max_le h (min_le_left _ _)

theorem seek_clamps_and_pauses_witness :
    0 ≤ (handleSeekKey ⟨0, 0, 0, true, true, 1, 100⟩ 1).currentTime ∧
    (handleSeekKey ⟨0, 0, 0, true, true, 1, 100⟩ 1).currentTime ≤ 100 ∧
    (handleSeekKey ⟨0, 0, 0, true, true, 1, 100⟩ 1).isPlaying = false :=
  seek_clamps_and_pauses ⟨0, 0, 0, true, true, 1, 100⟩ 1 (by norm_num)


/-! ## C6: the analytics histogram -/

instance : Inhabited HistogramBin := ⟨⟨0, 0, 0, ""⟩⟩

/-- The five recorded type-3 events of the concrete histogram scenario, at
global times 10, 70, 70, 250 and 299. -/
def histScenarioTimestamps : List Timestamp :=
  [⟨1, 3, "e", 10, 10, "", 1, "a", ""⟩, ⟨2, 3, "e", 70, 70, "", 1, "a", ""⟩,
   ⟨3, 3, "e", 70, 70, "", 1, "a", ""⟩, ⟨4, 3, "e", 250, 250, "", 1, "a", ""⟩,
   ⟨5, 3, "e", 299, 299, "", 1, "a", ""⟩]

/-- C6.  `histogram(start, end, w, typeId)` (`histogramData` with bin size
`w / 60` minutes, i.e. bin width `w` seconds) produces `⌈(end - start) / w⌉`
consecutive bins, bin `i` spanning `[start + i·w, min (start + (i+1)·w) end)`
and counting exactly the annotations of the given type whose global-time
offset lies in that half-open interval; and the concrete scenario
`histogram(0, 300, 60, 3)` over type-3 events at global times
10, 70, 70, 250, 299 yields bin counts `[1, 2, 0, 0, 2]`. -/
theorem histogram_bins_partition (timestamps : List Timestamp) (s e w : ℚ)
    (selectedEventId : ℕ) (_hw : 0 < w) :
    (histogramData timestamps s e (w / 60) selectedEventId).length =
      (⌈(e - s) / w⌉).toNat ∧
    (∀ i, i < (histogramData timestamps s e (w / 60) selectedEventId).length →
      (histogramData timestamps s e (w / 60) selectedEventId).getD i default =
        { startTime := s + i * w
          endTime := min (s + (i + 1) * w) e
          count := (timestamps.filter (fun t =>
            t.eventId == selectedEventId && decide (s + i * w ≤ t.atSecondFirst)
              && decide (t.atSecondFirst < min (s + (i + 1) * w) e))).length
          label := formatTime (some (s + i * w)) ++ " - "
            ++ formatTime (some (min (s + (i + 1) * w) e)) }) ∧
    (histogramData histScenarioTimestamps 0 300 1 3).map (fun b => b.count) =
      [1, 2, 0, 0, 2] := by
  have hb : w / 60 * 60 = w := div_mul_cancel₀ w (by norm_num)
  refine ⟨?_, ?_, ?_⟩
  · simp only [histogramData, List.length_map, List.length_range, hb]
  · intro i hi
    have hi2 : i < (⌈(e - s) / w⌉).toNat := by
      simpa only [histogramData, List.length_map, List.length_range, hb] using hi
    rw [List.getD_eq_getElem?_getD]
    simp only [histogramData, hb, List.getElem?_map, List.getElem?_range hi2]
    rfl
  · norm_num [histogramData, histScenarioTimestamps,
      show Int.toNat 5 = 5 from by decide,
      show List.range 5 = [0, 1, 2, 3, 4] from rfl,
      List.filter_cons, List.filter_nil, Bool.and_eq_true, decide_eq_true_eq, beq_iff_eq]

theorem histogram_bins_partition_witness :
    (histogramData histScenarioTimestamps 0 300 1 3).map (fun b => b.count) =
      [1, 2, 0, 0, 2] ∧
    (histogramData histScenarioTimestamps 0 300 1 3).length = 5 := by
  have h := histogram_bins_partition histScenarioTimestamps 0 300 60 3 (by norm_num)
  rw [show (60 : ℚ) / 60 = 1 by norm_num] at h
  refine ⟨h.2.2, ?_⟩
  rw [h.1]
  norm_num
  decide

/-! ## Evaluation helpers for the time codec -/

theorem ratTrunc_of_nonneg {q : ℚ} (h : 0 ≤ q) : ratTrunc q = ⌊q⌋ := if_pos h

/-- `formatTime` on a non-negative finite value, with the truncations spelled
out as floors. -/
theorem formatTime_nonneg (q : ℚ) (hq : 0 ≤ q) :
    formatTime (some q) =
      padStart2 (natToString (⌊q / 3600⌋).natAbs) ++ ":" ++
      padStart2 (natToString (⌊(q - 3600 * (⌊q / 3600⌋ : ℚ)) / 60⌋).natAbs) ++ ":" ++
      padStart2 (natToString (⌊q - 60 * (⌊q / 60⌋ : ℚ)⌋).natAbs) := by
  have h36 : (3600 : ℚ) ≠ 0 := by norm_num
  have h60 : (60 : ℚ) ≠ 0 := by norm_num
  have hdiv36 : 0 ≤ q / 3600 := by positivity
  have hdiv60 : 0 ≤ q / 60 := by positivity
  have hmod36 : 0 ≤ q - 3600 * (⌊q / 3600⌋ : ℚ) := by
    have := Int.sub_floor_div_mul_nonneg q (show (0 : ℚ) < 3600 by norm_num)
    linarith
  have hmod60 : 0 ≤ q - 60 * (⌊q / 60⌋ : ℚ) := by
    have := Int.sub_floor_div_mul_nonneg q (show (0 : ℚ) < 60 by norm_num)
    linarith
  have hfl36 : (0 : ℤ) ≤ ⌊q / 3600⌋ := Int.floor_nonneg.mpr hdiv36
  have hflm : (0 : ℤ) ≤ ⌊(q - 3600 * (⌊q / 3600⌋ : ℚ)) / 60⌋ :=
    Int.floor_nonneg.mpr (by positivity)
  have hfls : (0 : ℤ) ≤ ⌊q - 60 * (⌊q / 60⌋ : ℚ)⌋ := Int.floor_nonneg.mpr hmod60
  simp only [formatTime, jsDiv, jsMod, jsFloor, if_neg h36, if_neg h60,
    ratTrunc_of_nonneg hdiv36, ratTrunc_of_nonneg hdiv60, Option.map_some']
  simp only [jsIntToString, if_neg (not_lt.mpr hfl36), if_neg (not_lt.mpr hflm),
    if_neg (not_lt.mpr hfls)]

/-- `parseTime` on a string splitting into exactly three numeric fields. -/
theorem parseTime_digits3 (s f1 f2 f3 : String) (n1 n2 n3 : ℕ)
    (hs : jsSplit ':' s = [f1, f2, f3])
    (h1 : jsNumber f1 = some ((n1 : ℕ) : ℚ))
    (h2 : jsNumber f2 = some ((n2 : ℕ) : ℚ))
    (h3 : jsNumber f3 = some ((n3 : ℕ) : ℚ)) :
    parseTime s = some (((n1 * 3600 + n2 * 60 + n3 : ℕ) : ℚ)) := by
  simp only [parseTime, hs, List.map_cons, List.map_nil, h1, h2, h3, List.length_cons,
    List.length_nil, List.getD, jsAdd, jsMul]
  norm_num

theorem natDecAux_eq_digits : ∀ (fuel n : ℕ), n ≤ fuel →
    natDecAux fuel n = ((Nat.digits 10 n).reverse).map Nat.digitChar
  | 0, 0, _ => by simp [natDecAux]
  | 0, n + 1, h => absurd h (by omega)
  | fuel + 1, n, h => by
      rw [natDecAux]
      by_cases hn : n = 0
      · subst hn; simp
      · rw [if_neg hn]
        have hlt : n / 10 < n := Nat.div_lt_self (Nat.pos_of_ne_zero hn) (by norm_num)
        rw [natDecAux_eq_digits fuel (n / 10) (by omega),
          Nat.digits_def' (by norm_num : 1 < 10) (Nat.pos_of_ne_zero hn)]
        simp

theorem natDecChars_eq_digits (n : ℕ) :
    natDecChars n = ((Nat.digits 10 n).reverse).map Nat.digitChar :=
  natDecAux_eq_digits n n le_rfl

/-! ## C3: segment removal and the contiguity invariant -/

/-- A contiguous four-segment registry (durations 100, 50, 200, 10 anchored at
`"10:00:00"`); segment 2 (the 50-second one) is about to be removed. -/
def removeScenarioVideos : List VideoFile :=
  [⟨1, "a", 100, "10:00:00"⟩, ⟨2, "b", 50, "10:01:40"⟩,
   ⟨3, "c", 200, "10:02:30"⟩, ⟨4, "d", 10, "10:05:50"⟩]

/-- What `handleRemoveVideo` actually produces when segment 2 is removed:
segment 3's start is rebuilt from segment 1, but segment 4's start is rebuilt
from segment 3's *stale* pre-recalculation start `"10:02:30"`, leaving
`"10:05:50"` where contiguity demands `"10:05:00"`. -/
def removeScenarioResult : List VideoFile :=
  [⟨1, "a", 100, "10:00:00"⟩, ⟨3, "c", 200, "10:01:40"⟩, ⟨4, "d", 10, "10:05:50"⟩]

/-- C3.  The contiguity claim fails on the code: removing a middle segment
with two successors from a contiguous registry yields a registry that is
*not* contiguous, because the recalculation pass reads the predecessor from
the pre-recalculation array.  (The claim is the documented intent — the
sibling reorder and start-time-change handlers walk forward over the updated
array — so this is a code bug, not a spec error.) -/
theorem remove_middle_segment_breaks_contiguity :
    contiguous removeScenarioVideos ∧
    handleRemoveVideo removeScenarioVideos [] 2 = some removeScenarioResult ∧
    ¬ contiguous removeScenarioResult := by
  have hp0 : parseTime "10:00:00" = some ((36000 : ℚ)) := by
    rw [parseTime_digits3 "10:00:00" "10" "00" "00" 10 0 0 rfl rfl rfl rfl]; norm_num
  have hp1 : parseTime "10:01:40" = some ((36100 : ℚ)) := by
    rw [parseTime_digits3 "10:01:40" "10" "01" "40" 10 1 40 rfl rfl rfl rfl]; norm_num
  have hp2 : parseTime "10:02:30" = some ((36150 : ℚ)) := by
    rw [parseTime_digits3 "10:02:30" "10" "02" "30" 10 2 30 rfl rfl rfl rfl]; norm_num
  have hp3 : parseTime "10:05:50" = some ((36350 : ℚ)) := by
    rw [parseTime_digits3 "10:05:50" "10" "05" "50" 10 5 50 rfl rfl rfl rfl]; norm_num
  have hf1 : formatTime (some ((36100 : ℚ))) = "10:01:40" := by
    rw [formatTime_nonneg _ (by norm_num)]; norm_num; decide
  have hf3 : formatTime (some ((36350 : ℚ))) = "10:05:50" := by
    rw [formatTime_nonneg _ (by norm_num)]; norm_num; decide
  refine ⟨?_, ?_, ?_⟩
  · intro i h0 hl
    simp only [removeScenarioVideos, List.length_cons, List.length_nil] at hl
    interval_cases i
    · norm_num [removeScenarioVideos, List.getD_cons_succ, List.getD_cons_zero]
      rw [hp0, hp1]
      norm_num [jsAdd]
    · norm_num [removeScenarioVideos, List.getD_cons_succ, List.getD_cons_zero]
      rw [hp1, hp2]
      norm_num [jsAdd]
    · norm_num [removeScenarioVideos, List.getD_cons_succ, List.getD_cons_zero]
      rw [hp2, hp3]
      norm_num [jsAdd]
  · have hremove : handleRemoveVideo removeScenarioVideos [] 2 =
        some [⟨1, "a", 100, "10:00:00"⟩,
              ⟨3, "c", 200, formatTime (jsAdd (parseTime "10:00:00") (some 100))⟩,
              ⟨4, "d", 10, formatTime (jsAdd (parseTime "10:02:30") (some 200))⟩] := rfl
    rw [hp0, hp2] at hremove
    simp only [jsAdd] at hremove
    norm_num at hremove
    rw [hf1, hf3] at hremove
    exact hremove
  · intro h
    have h2 := h 2 (by norm_num) (by norm_num [removeScenarioResult])
    norm_num only [removeScenarioResult, List.getD_cons_succ, List.getD_cons_zero] at h2
    rw [hp1, hp3] at h2
    norm_num [jsAdd] at h2
    exact absurd (Option.some.inj h2) (by norm_num)

/-! ## C4: event-type counts under the table operations -/

/-- One recorded annotation of type 1. -/
def tableScenarioTimestamps : List Timestamp :=
  [⟨10, 1, "Event 1", 5, 5, "10:00:05", 1, "a", ""⟩]

/-- The catalog with an accurate count: type 1 has one reference, type 2
none. -/
def tableScenarioEventTypes : List EventType :=
  [⟨1, "Event 1", 1⟩, ⟨2, "Event 2", 0⟩]

instance (ts : List Timestamp) (ets : List EventType) :
    Decidable (countsAccurate ts ets) := by
  unfold countsAccurate; infer_instance

/-- C4.  The count-cache claim fails on the code: the timestamp table's
delete and reassign handlers never touch the event-type catalog (the
component has no event-types setter), so deleting the only type-1 annotation
— or reassigning it to type 2 — leaves both counts unchanged and breaks the
`count = number of referencing annotations` invariant that the Backspace
delete path and the record path do maintain. -/
theorem table_ops_break_count_invariant :
    countsAccurate tableScenarioTimestamps tableScenarioEventTypes ∧
    handleDeleteTimestamp tableScenarioTimestamps 10 true = [] ∧
    ¬ countsAccurate (handleDeleteTimestamp tableScenarioTimestamps 10 true)
        tableScenarioEventTypes ∧
    handleEventTypeChange tableScenarioTimestamps tableScenarioEventTypes 10 2 =
      [⟨10, 2, "Event 2", 5, 5, "10:00:05", 1, "a", ""⟩] ∧
    ¬ countsAccurate (handleEventTypeChange tableScenarioTimestamps tableScenarioEventTypes 10 2)
        tableScenarioEventTypes := by
  decide

/-! ## C2: the annotation collection stays sorted -/

theorem sorted_jsSortTimestamps (l : List Timestamp) :
    List.Sorted tsLE (jsSortTimestamps l) :=
  List.sorted_insertionSort tsLE l

theorem sorted_applyAnnOp (st : List Timestamp × List EventType) (op : AnnOp)
    (h : List.Sorted tsLE st.1) : List.Sorted tsLE (applyAnnOp st op).1 := by
  cases op with
  | record videos videoState eventId freshId =>
      simp only [applyAnnOp, handleEventMark]
      split
      · exact h
      · split
        · exact h
        · split
          · exact h
          · exact sorted_jsSortTimestamps _
  | tableDelete timestampId confirm =>
      simp only [applyAnnOp, handleDeleteTimestamp]
      split
      · exact List.Pairwise.filter _ h
      · exact h
  | backspaceDelete currentTime confirm =>
      simp only [applyAnnOp, handleBackspaceDelete]
      split
      · exact h
      · split
        · exact List.Pairwise.filter _ h
        · exact h

/-- C2.  (a) Starting from any state with a sorted annotation collection —
in particular the empty initial state — every interleaving of record and
delete operations leaves the collection sorted ascending by `atSecondFirst`;
so it is sorted after every record.  (b) A record operation either leaves the
collection untouched (one of its guards failed) or produces a sorted
collection outright — the insertion re-sorts, it does not merely append. -/
theorem record_preserves_sorted_order :
    (∀ (st : List Timestamp × List EventType) (ops : List AnnOp),
      List.Sorted tsLE st.1 → List.Sorted tsLE (applyAnnOps st ops).1) ∧
    (∀ (videos : List VideoFile) (videoState : VideoState)
       (timestamps : List Timestamp) (eventTypes : List EventType)
       (eventId freshId : ℕ),
      (handleEventMark videos videoState timestamps eventTypes eventId freshId).1
          = timestamps ∨
        List.Sorted tsLE
          (handleEventMark videos videoState timestamps eventTypes eventId freshId).1) := by
  constructor
  · intro st ops h
    induction ops generalizing st with
    | nil => exact h
    | cons op rest ih =>
        rw [applyAnnOps, List.foldl_cons]
        exact ih (applyAnnOp st op) (sorted_applyAnnOp st op h)
  · intro videos videoState timestamps eventTypes eventId freshId
    simp only [handleEventMark]
    split
    · exact Or.inl rfl
    · split
      · exact Or.inl rfl
      · split
        · exact Or.inl rfl
        · exact Or.inr (sorted_jsSortTimestamps _)

theorem record_preserves_sorted_order_witness :
    List.Sorted tsLE
      (applyAnnOps ([], [⟨1, "Event 1", 0⟩, ⟨2, "Event 2", 0⟩])
        [AnnOp.record [⟨1, "a", 100, "10:00:00"⟩] ⟨5, 0, 5, false, true, 1, 100⟩ 1 7,
         AnnOp.record [⟨1, "a", 100, "10:00:00"⟩] ⟨2, 0, 2, false, true, 1, 100⟩ 2 8,
         AnnOp.backspaceDelete 2 true]).1 :=
  record_preserves_sorted_order.1 _ _ List.sorted_nil

/-! ## C5: recording then deleting the closest entry -/

/-- Inserting a new element into a sorted list by the stable sort puts it at
one position and leaves everything else in place: the sorted result of
`l ++ [x]` is `l₁ ++ x :: l₂` for some split `l = l₁ ++ l₂`. -/
theorem insertionSort_sorted_append_singleton :
    ∀ (l : List Timestamp), List.Sorted tsLE l → ∀ (x : Timestamp),
      ∃ l₁ l₂, l = l₁ ++ l₂ ∧
        List.insertionSort tsLE (l ++ [x]) = l₁ ++ x :: l₂ := by
  intro l
  induction l with
  | nil =>
      intro _ x
      exact ⟨[], [], rfl, by simp [List.insertionSort, List.orderedInsert]⟩
  | cons a l ih =>
      intro hs x
      have hal : ∀ b ∈ l, tsLE a b := (List.sorted_cons.mp hs).1
      have hl : List.Sorted tsLE l := (List.sorted_cons.mp hs).2
      obtain ⟨l₁, l₂, hsplit, heq⟩ := ih hl x
      have hstep : List.insertionSort tsLE ((a :: l) ++ [x]) =
          List.orderedInsert tsLE a (l₁ ++ x :: l₂) := by
        rw [List.cons_append, List.insertionSort, heq]
      cases l₁ with
      | cons b l₁t =>
          have hab : tsLE a b := hal b (by
            rw [hsplit]
            exact List.mem_append_left _ (List.mem_cons_self b l₁t))
          refine ⟨a :: b :: l₁t, l₂, by rw [hsplit]; rfl, ?_⟩
          rw [hstep, List.cons_append, List.orderedInsert_of_le _ _ hab]
          rfl
      | nil =>
          simp only [List.nil_append] at heq hsplit
          by_cases hax : tsLE a x
          · refine ⟨[a], l₂, by rw [hsplit]; rfl, ?_⟩
            rw [hstep, List.nil_append, List.orderedInsert_of_le _ _ hax]
            rfl
          · refine ⟨[], a :: l₂, by rw [hsplit]; rfl, ?_⟩
            have hinsert : List.orderedInsert tsLE a l₂ = a :: l₂ := by
              cases l₂ with
              | nil => rfl
              | cons c l₂t =>
                  exact List.orderedInsert_of_le _ _ (hal c (by
                    rw [hsplit]
                    exact List.mem_cons_self c l₂t))
            rw [hstep, List.nil_append]
            simp only [List.orderedInsert, if_neg hax, hinsert, List.nil_append]

/-- The `reduce` in the Backspace handler returns the unique element at
strictly minimal distance when one exists. -/
theorem closestTimestamp_eq_of_unique_min (cur : ℚ) (m : Timestamp) :
    ∀ (rest : List Timestamp) (p : Timestamp),
      (p = m ∨ m ∈ rest) →
      (∀ x, (x = p ∨ x ∈ rest) → x ≠ m →
        |m.atSecondFirst - cur| < |x.atSecondFirst - cur|) →
      closestTimestamp p rest cur = m := by
  intro rest
  induction rest with
  | nil =>
      intro p hm _
      rcases hm with rfl | h
      · rfl
      · cases h
  | cons c cs ih =>
      intro p hm hlt
      have hstep : closestTimestamp p (c :: cs) cur =
          closestTimestamp
            (if |c.atSecondFirst - cur| < |p.atSecondFirst - cur| then c else p)
            cs cur := rfl
      rw [hstep]
      have hsub : ∀ x, (x = (if |c.atSecondFirst - cur| < |p.atSecondFirst - cur|
          then c else p) ∨ x ∈ cs) → (x = p ∨ x ∈ c :: cs) := by
        intro x hx
        rcases hx with h2 | h2
        · by_cases hc : |c.atSecondFirst - cur| < |p.atSecondFirst - cur|
          · rw [if_pos hc] at h2
            exact Or.inr (h2 ▸ List.mem_cons_self c cs)
          · rw [if_neg hc] at h2
            exact Or.inl h2
        · exact Or.inr (List.mem_cons_of_mem c h2)
      have hlt2 : ∀ x, (x = (if |c.atSecondFirst - cur| < |p.atSecondFirst - cur|
          then c else p) ∨ x ∈ cs) → x ≠ m →
          |m.atSecondFirst - cur| < |x.atSecondFirst - cur| :=
        fun x hx hxm => hlt x (hsub x hx) hxm
      by_cases hpm : p = m
      · subst hpm
        refine ih _ (Or.inl ?_) hlt2
        by_cases hcp : c = p
        · subst hcp
          simp
        · have hd : |p.atSecondFirst - cur| < |c.atSecondFirst - cur| :=
            hlt c (Or.inr (List.mem_cons_self c cs)) hcp
          rw [if_neg (fun hcontra => absurd (lt_trans hcontra hd) (lt_irrefl _))]
      · rcases hm with h | h
        · exact absurd h hpm
        · rcases List.mem_cons.mp h with rfl | hmcs
          · have hd : |m.atSecondFirst - cur| < |p.atSecondFirst - cur| :=
              hlt p (Or.inl rfl) hpm
            exact ih _ (Or.inl (if_pos hd)) hlt2
          · exact ih _ (Or.inr hmcs) hlt2

/-- C5 (amended).  Recording at global time `t` and immediately applying the
Backspace delete-closest at the same `t` restores the pre-record annotation
list (order included) and all event-type counts, *provided* no pre-existing
annotation sits exactly at time `t` (and, as always for `generateId`, the new
identity is fresh, the store is sorted as the app maintains it, and the
counts are non-negative).  With an existing annotation exactly at `t` the
tie-break deletes that older annotation instead — see the counterexample. -/
theorem record_then_deleteClosest_restores (videos : List VideoFile)
    (videoState : VideoState) (timestamps : List Timestamp)
    (eventTypes : List EventType) (eventId freshId : ℕ)
    (currentVideo : VideoFile) (et : EventType)
    (hne : videos ≠ [])
    (hvid : videos.get? videoState.currentVideoIndex = some currentVideo)
    (hfind : eventTypes.find? (fun e => e.id == eventId) = some et)
    (hsorted : List.Sorted tsLE timestamps)
    (hfresh : ∀ a ∈ timestamps, a.id ≠ freshId)
    (hnotat : ∀ a ∈ timestamps, a.atSecondFirst ≠ videoState.currentTime)
    (hcnt : ∀ e ∈ eventTypes, 0 ≤ e.count) :
    handleBackspaceDelete
      (handleEventMark videos videoState timestamps eventTypes eventId freshId).1
      (handleEventMark videos videoState timestamps eventTypes eventId freshId).2
      videoState.currentTime true = (timestamps, eventTypes) := by
  have hlen : ¬ (videos.length = 0) := by
    simpa [List.length_eq_zero] using hne
  set newT : Timestamp :=
    { id := freshId, eventId := eventId, eventName := et.name,
      atSecondFirst := videoState.currentTime,
      atSecondCurrent := videoState.currentVideoTime,
      timeHHMMSS := calculateRealWorldTime videos videoState.currentTime,
      videoId := currentVideo.id, videoName := currentVideo.name, note := "" }
    with hnewT
  have hmark : handleEventMark videos videoState timestamps eventTypes eventId freshId =
      (jsSortTimestamps (timestamps ++ [newT]),
       eventTypes.map (fun e =>
         if e.id == eventId then { e with count := e.count + 1 } else e)) := by
    simp only [handleEventMark, if_neg hlen, hvid, hfind]
  rw [hmark]
  obtain ⟨l₁, l₂, hsplit, heq⟩ :=
    insertionSort_sorted_append_singleton timestamps hsorted newT
  have hsort : jsSortTimestamps (timestamps ++ [newT]) = l₁ ++ newT :: l₂ := heq
  have hmem : ∀ x ∈ l₁ ++ newT :: l₂, x = newT ∨ x ∈ timestamps := by
    intro x hx
    rcases List.mem_append.mp hx with h | h
    · exact Or.inr (by rw [hsplit]; exact List.mem_append_left _ h)
    · rcases List.mem_cons.mp h with h2 | h2
      · exact Or.inl h2
      · exact Or.inr (by rw [hsplit]; exact List.mem_append_right _ h2)
  have hdist : ∀ x, x ∈ l₁ ++ newT :: l₂ → x ≠ newT →
      |newT.atSecondFirst - videoState.currentTime| <
        |x.atSecondFirst - videoState.currentTime| := by
    intro x hx hxne
    rcases hmem x hx with h | h
    · exact absurd h hxne
    · have h1 : newT.atSecondFirst = videoState.currentTime := rfl
      have h2 : x.atSecondFirst ≠ videoState.currentTime := hnotat x h
      rw [h1, sub_self, abs_zero]
      exact abs_pos.mpr (sub_ne_zero.mpr h2)
  have hfilter : (l₁ ++ newT :: l₂).filter (fun t => t.id != newT.id) = timestamps := by
    have hl1 : l₁.filter (fun t => t.id != newT.id) = l₁ :=
      List.filter_eq_self.mpr (fun a ha => by
        simp only [bne_iff_ne, ne_eq, decide_eq_true_eq]
        exact hfresh a (by rw [hsplit]; exact List.mem_append_left _ ha))
    have hl2 : l₂.filter (fun t => t.id != newT.id) = l₂ :=
      List.filter_eq_self.mpr (fun a ha => by
        simp only [bne_iff_ne, ne_eq, decide_eq_true_eq]
        exact hfresh a (by rw [hsplit]; exact List.mem_append_right _ ha))
    rw [List.filter_append, List.filter_cons, hl1, hl2]
    simp only [bne_self_eq_false, Bool.false_eq_true,
      if_neg (by simp : ¬ (newT.id != newT.id) = true)]
    exact hsplit.symm
  have hmap : (eventTypes.map (fun e =>
        if e.id == eventId then { e with count := e.count + 1 } else e)).map
      (fun e => if e.id == newT.eventId then { e with count := max 0 (e.count - 1) } else e)
      = eventTypes := by
    rw [List.map_map]
    have hpt : ∀ e ∈ eventTypes,
        ((fun e => if e.id == newT.eventId then { e with count := max 0 (e.count - 1) } else e)
          ∘ (fun e => if e.id == eventId then { e with count := e.count + 1 } else e)) e = e := by
      intro e he
      have hid : newT.eventId = eventId := rfl
      by_cases hcase : (e.id == eventId) = true
      · simp only [Function.comp_apply, if_pos hcase, hid]
        have : max (0 : ℤ) (e.count + 1 - 1) = e.count := by
          have := hcnt e he
          omega
        simp only [hcase, if_pos, this]
      · simp only [Function.comp_apply, if_neg hcase, hid, if_neg hcase]
    simpa using List.map_congr_left hpt
  cases l₁ with
  | nil =>
      simp only [List.nil_append] at hsort hmem hdist hfilter
      rw [hsort]
      simp only [handleBackspaceDelete, if_pos]
      have hclosest : closestTimestamp newT l₂ videoState.currentTime = newT := by
        apply closestTimestamp_eq_of_unique_min _ _ _ _ (Or.inl rfl)
        intro x hx hxm
        apply hdist x ?_ hxm
        rcases hx with h | h
        · exact h ▸ List.mem_cons_self newT l₂
        · exact List.mem_cons_of_mem newT h
      rw [hclosest]
      rw [show (newT :: l₂).filter (fun t => t.id != newT.id) = timestamps from hfilter]
      rw [hmap]
  | cons b t =>
      simp only [List.cons_append] at hsort
      rw [hsort]
      simp only [handleBackspaceDelete, if_pos]
      have hclosest : closestTimestamp b (t ++ newT :: l₂) videoState.currentTime = newT := by
        apply closestTimestamp_eq_of_unique_min _ _ _ _
          (Or.inr (List.mem_append_right _ (List.mem_cons_self newT l₂)))
        intro x hx hxm
        apply hdist x ?_ hxm
        rcases hx with h | h
        · exact h ▸ List.mem_cons_self b (t ++ newT :: l₂)
        · exact List.mem_cons_of_mem b h
      rw [hclosest]
      rw [show (b :: (t ++ newT :: l₂)).filter (fun t2 => t2.id != newT.id) = timestamps from
        by rw [← List.cons_append]; exact hfilter]
      rw [hmap]

/-- The one-segment registry, playback state at global time 5, and catalog of
the record/delete-closest scenario. -/
def c5Videos : List VideoFile := [⟨1, "a", 100, "10:00:00"⟩]

/-- Playback state positioned at global time 5. -/
def c5State : VideoState := ⟨5, 0, 5, false, true, 1, 100⟩

/-- A pre-existing annotation sitting exactly at global time 5. -/
def c5Existing : Timestamp := ⟨0, 1, "Event 1", 5, 5, "10:00:05", 1, "a", "note"⟩

/-- The catalog with accurate counts for that store. -/
def c5Types : List EventType := [⟨1, "Event 1", 1⟩, ⟨2, "Event 2", 0⟩]

/-- C5 counterexample: with an annotation of type 1 already sitting exactly at
global time 5, recording a type-2 event at 5 and immediately deleting closest
to 5 removes the *older* annotation (ties go to the earliest in stored order),
so even the event-type counts are not restored. -/
theorem record_then_deleteClosest_not_inverse :
    (handleBackspaceDelete
      (handleEventMark c5Videos c5State [c5Existing] c5Types 2 1).1
      (handleEventMark c5Videos c5State [c5Existing] c5Types 2 1).2
      5 true).2 ≠ c5Types := by
  have hnewT : handleEventMark c5Videos c5State [c5Existing] c5Types 2 1 =
      (List.insertionSort tsLE ([c5Existing] ++
        [⟨1, 2, "Event 2", 5, 5, calculateRealWorldTime c5Videos 5, 1, "a", ""⟩]),
       [⟨1, "Event 1", 1⟩, ⟨2, "Event 2", 1⟩]) := rfl
  set newT : Timestamp := ⟨1, 2, "Event 2", 5, 5, calculateRealWorldTime c5Videos 5, 1, "a", ""⟩
    with hdefT
  have hsort : List.insertionSort tsLE ([c5Existing] ++ [newT]) = [c5Existing, newT] := by
    show List.orderedInsert tsLE c5Existing
      (List.orderedInsert tsLE newT (List.insertionSort tsLE [])) = _
    rw [show List.insertionSort tsLE [] = [] from rfl,
      show List.orderedInsert tsLE newT [] = [newT] from rfl,
      List.orderedInsert_of_le _ _ (show tsLE c5Existing newT by norm_num [tsLE, c5Existing])]
  rw [hnewT, hsort]
  have hclosest : closestTimestamp c5Existing [newT] 5 = c5Existing := by
    show (if |newT.atSecondFirst - 5| < |c5Existing.atSecondFirst - 5| then newT else c5Existing)
        = c5Existing
    rw [if_neg (by norm_num [c5Existing])]
  have hback : handleBackspaceDelete [c5Existing, newT] [⟨1, "Event 1", 1⟩, ⟨2, "Event 2", 1⟩]
      5 true =
      ([c5Existing, newT].filter (fun t => t.id != c5Existing.id),
       [⟨1, "Event 1", max 0 (1 - 1)⟩, ⟨2, "Event 2", 1⟩]) := by
    simp only [handleBackspaceDelete, hclosest, if_pos]
    rfl
  rw [hback]
  decide

/-- An annotation at global time 3 — *not* at the record time 5. -/
def c5Earlier : Timestamp := ⟨0, 1, "Event 1", 3, 3, "10:00:03", 1, "a", ""⟩

theorem record_then_deleteClosest_restores_witness :
    handleBackspaceDelete
      (handleEventMark c5Videos c5State [c5Earlier] c5Types 2 7).1
      (handleEventMark c5Videos c5State [c5Earlier] c5Types 2 7).2
      c5State.currentTime true = ([c5Earlier], c5Types) :=
  record_then_deleteClosest_restores c5Videos c5State [c5Earlier] c5Types 2 7
    ⟨1, "a", 100, "10:00:00"⟩ ⟨2, "Event 2", 0⟩
    (by decide) rfl rfl (List.sorted_singleton _)
    (by decide)
    (by
      intro a ha
      rw [List.mem_singleton] at ha
      subst ha
      norm_num [c5Earlier, c5State])
    (by decide)

/-! ## C8: parseTime on malformed input -/

/-- C8 counterexample: a string with three colon-separated non-numeric fields
does *not* parse to `0` — `Number("a")` is `NaN` and the sum stays `NaN`. -/
theorem parseTime_nonnumeric_not_zero : parseTime "a:b:c" ≠ some 0 := by
  have h : parseTime "a:b:c" = none := by
    simp only [parseTime, show jsSplit ':' "a:b:c" = ["a", "b", "c"] from rfl,
      show jsNumber "a" = none from rfl, show jsNumber "b" = none from rfl,
      show jsNumber "c" = none from rfl, List.map_cons, List.map_nil]
    norm_num [jsAdd, jsMul, List.getD]
  rw [h]
  exact fun hcontra => Option.noConfusion hcontra

theorem not_digit_of_lower {c : Char} (h : c.isLower = true) : c.isDigit = false := by
  simp only [Char.isLower] at h
  simp only [Char.isDigit]
  rw [Bool.and_eq_true] at h
  rw [Bool.and_eq_false_iff]
  right
  simp only [decide_eq_true_eq] at h
  simp only [decide_eq_false_iff_not]
  intro hc
  have h1 : 97 ≤ c.val.toNat := h.1
  have h2 : c.val.toNat ≤ 57 := hc
  omega

/-- On a nonempty run of lowercase letters — which matches no production of
the ECMAScript numeric-string grammar, so the source `Number` yields `NaN` —
the model also yields `none`. -/
theorem jsNumber_lower_none (f : String) (hne : f.data ≠ [])
    (hl : f.data.all Char.isLower = true) : jsNumber f = none := by
  unfold jsNumber
  split
  · next heq => exact absurd heq hne
  · next rest heq =>
      rw [heq, List.all_cons] at hl
      simp at hl
  · have hnd : ¬(f.data.all Char.isDigit = true) := by
      intro hd
      obtain ⟨c, hc⟩ := List.exists_mem_of_ne_nil f.data hne
      have h1 := List.all_eq_true.mp hl c hc
      have h2 := List.all_eq_true.mp hd c hc
      rw [not_digit_of_lower h1] at h2
      exact Bool.false_ne_true h2
    rw [if_neg hnd]

/-- C8 (amended).  `parseTime` never raises: when the colon-split of the
input does not have exactly three fields it returns `0` (the value `0` can
also arise from well-formed input such as `"0:0:0"`); with exactly three
fields the result is the weighted sum of the fields' `Number` conversions,
so when a field is certainly non-numeric — a nonempty run of lowercase
letters, on which `Number` is `NaN` — the result is `NaN` (`none`), not
`0`. -/
theorem parseTime_malformed (s : String) :
    ((jsSplit ':' s).length ≠ 3 → parseTime s = some 0) ∧
    ((jsSplit ':' s).length = 3 →
      (∃ f ∈ jsSplit ':' s, f.data ≠ [] ∧ f.data.all Char.isLower = true) →
      parseTime s = none) := by
  constructor
  · intro h
    simp only [parseTime, List.length_map]
    rw [if_pos h]
  · intro h3 hex
    obtain ⟨a, b, c, habc⟩ := List.length_eq_three.mp h3
    obtain ⟨f, hf, hne, hl⟩ := hex
    have hnone : jsNumber f = none := jsNumber_lower_none f hne hl
    rw [habc] at hf
    simp only [List.mem_cons, List.not_mem_nil, or_false] at hf
    simp only [parseTime, habc, List.map_cons, List.map_nil, List.length_cons,
      List.length_nil, List.getD]
    norm_num
    rcases hf with rfl | rfl | rfl
    · rw [hnone]
      cases jsNumber b <;> cases jsNumber c <;> simp [jsAdd, jsMul]
    · rw [hnone]
      cases jsNumber a <;> cases jsNumber c <;> simp [jsAdd, jsMul]
    · rw [hnone]
      cases jsNumber a <;> cases jsNumber b <;> simp [jsAdd, jsMul]

theorem parseTime_malformed_witness :
    parseTime "10:20" = some 0 ∧ parseTime "a:b:c" = none :=
  ⟨(parseTime_malformed "10:20").1 (by decide),
   (parseTime_malformed "a:b:c").2 (by decide) ⟨"a", by decide, by decide, by decide⟩⟩

theorem recalcStep_length (l : List VideoFile) (i : ℕ) :
    (recalcStep l i).length = l.length := by
  unfold recalcStep
  cases h1 : l.get? (i - 1) <;> cases h2 : l.get? i <;> simp [h1, h2]

theorem recalcStep_getD_ne (l : List VideoFile) (i j : ℕ) (h : j ≠ i) :
    (recalcStep l i).getD j default = l.getD j default := by
  unfold recalcStep
  cases h1 : l.get? (i - 1) <;> cases h2 : l.get? i <;>
    simp [h1, h2, List.getD_eq_getElem?_getD, List.getElem?_set_ne (Ne.symm h)]

theorem recalcStep_getD_eq (l : List VideoFile) (i : ℕ) (hi : i < l.length) :
    (recalcStep l i).getD i default =
      { l.getD i default with
          startTime := formatTime
            (jsAdd (parseTime ((l.getD (i - 1) default).startTime))
              (some ((l.getD (i - 1) default).duration))) } := by
  have him : i - 1 < l.length := by omega
  have hprev : l.get? (i - 1) = some (l.getD (i - 1) default) := by
    rw [List.get?_eq_getElem?, List.getElem?_eq_getElem him, List.getD_eq_getElem?_getD,
      List.getElem?_eq_getElem him]
    rfl
  have hcur : l.get? i = some (l.getD i default) := by
    rw [List.get?_eq_getElem?, List.getElem?_eq_getElem hi, List.getD_eq_getElem?_getD,
      List.getElem?_eq_getElem hi]
    rfl
  unfold recalcStep
  rw [hprev, hcur]
  conv_lhs => rw [List.getD_eq_getElem?_getD]
  rw [List.getElem?_set_self hi]
  rfl

theorem recalcFrom_spec : ∀ (n : ℕ) (l : List VideoFile) (k : ℕ),
    1 ≤ k → k + n = l.length →
    (((List.range' k n).foldl recalcStep l).length = l.length) ∧
    (∀ j, j < k → ((List.range' k n).foldl recalcStep l).getD j default = l.getD j default) ∧
    (∀ j, k ≤ j → j < l.length →
      ((List.range' k n).foldl recalcStep l).getD j default =
        { l.getD j default with
            startTime := formatTime
              (jsAdd
                (parseTime
                  ((((List.range' k n).foldl recalcStep l).getD (j - 1) default).startTime))
                (some
                  ((((List.range' k n).foldl recalcStep l).getD (j - 1) default).duration))) })
  | 0, l, k, _, hkn =>
      ⟨rfl, fun _ _ => rfl, fun j hj hjl => absurd hjl (by omega)⟩
  | n + 1, l, k, hk1, hkn => by
      have hk : k < l.length := by omega
      have hfold : (List.range' k (n + 1)).foldl recalcStep l =
          (List.range' (k + 1) n).foldl recalcStep (recalcStep l k) := rfl
      have hlen2 : (recalcStep l k).length = l.length := recalcStep_length l k
      have ih := recalcFrom_spec n (recalcStep l k) (k + 1) (by omega) (by omega)
      rw [hfold]
      refine ⟨by rw [ih.1, hlen2], ?_, ?_⟩
      · intro j hj
        rw [ih.2.1 j (by omega), recalcStep_getD_ne l k j (by omega)]
      · intro j hkj hjl
        have hprev_eq : ((List.range' (k + 1) n).foldl recalcStep (recalcStep l k)).getD
            (k - 1) default = l.getD (k - 1) default := by
          rw [ih.2.1 (k - 1) (by omega), recalcStep_getD_ne l k (k - 1) (by omega)]
        by_cases hjk : j = k
        · subst hjk
          rw [ih.2.1 j (by omega), recalcStep_getD_eq l j hk, hprev_eq]
        · have hj2 := ih.2.2 j (by omega) (by rw [hlen2]; exact hjl)
          rw [hj2, recalcStep_getD_ne l k j (by omega)]

/-- C9 (amended): `handleStartTimeChange` performs no validation and never
fails: for *every* string `s` (parsable or not) it overwrites the first
segment's start time with `s` verbatim, recomputes each subsequent segment's
start as `formatTime(parseTime(prev.startTime) + prev.duration)` walking the
already-updated array, and refreshes every annotation's derived wall-clock
display via `calculateRealWorldTime` over the updated registry. There is no
`InvalidFormat` error path. -/
theorem setFirstStart_always_mutates (videos : List VideoFile)
    (timestamps : List Timestamp) (first : VideoFile) (rest : List VideoFile)
    (hv : videos = first :: rest) (s : String) :
    (handleStartTimeChange videos timestamps first.id s).1.length = videos.length ∧
    (handleStartTimeChange videos timestamps first.id s).1.getD 0 default
        = { first with startTime := s } ∧
    (∀ j, 1 ≤ j → j < videos.length →
      (handleStartTimeChange videos timestamps first.id s).1.getD j default =
        { videos.getD j default with
            startTime := formatTime
              (jsAdd
                (parseTime
                  (((handleStartTimeChange videos timestamps first.id s).1.getD
                    (j - 1) default).startTime))
                (some
                  (((handleStartTimeChange videos timestamps first.id s).1.getD
                    (j - 1) default).duration))) }) ∧
    (handleStartTimeChange videos timestamps first.id s).2 =
      timestamps.map (fun t =>
        { t with
            timeHHMMSS := calculateRealWorldTime
              (handleStartTimeChange videos timestamps first.id s).1 t.atSecondFirst }) := by
  subst hv
  have hfind : List.findIdx? (fun v => v.id == first.id) (first :: rest) = some 0 := by
    rw [List.findIdx?_cons]
    simp
  have hmain : handleStartTimeChange (first :: rest) timestamps first.id s =
      ((List.range' 1 rest.length).foldl recalcStep
          ({ first with startTime := s } :: rest),
       if timestamps.length ≠ 0 then
         timestamps.map (fun t =>
           { t with
               timeHHMMSS := calculateRealWorldTime
                 ((List.range' 1 rest.length).foldl recalcStep
                   ({ first with startTime := s } :: rest)) t.atSecondFirst })
       else timestamps) := by
    simp only [handleStartTimeChange, hfind, List.get?_cons_zero, List.set_cons_zero,
      List.length_cons, Nat.add_sub_cancel]
  have hspec := recalcFrom_spec rest.length ({ first with startTime := s } :: rest) 1
    le_rfl (by simp [Nat.add_comm])
  have huv : ∀ j, 1 ≤ j →
      ({ first with startTime := s } :: rest).getD j default =
        (first :: rest).getD j default := by
    intro j hj
    cases j with
    | zero => omega
    | succ j2 => simp
  rw [hmain]
  refine ⟨by simpa using hspec.1, by simpa using hspec.2.1 0 (by omega), ?_, ?_⟩
  · intro j hj hjl
    have := hspec.2.2 j hj (by simpa using hjl)
    rw [huv j hj] at this
    exact this
  · cases timestamps with
    | nil => simp
    | cons t ts => simp

def c9Videos : List VideoFile := [⟨1, "a", 100, "10:00:00"⟩, ⟨2, "b", 50, "10:01:40"⟩]

/-- C9 counterexample: setting the first segment's start to the unparsable
string `"garbage"` does *not* fail and does *not* leave the registry
unchanged — the handler stores `"garbage"` verbatim in the first segment and
recomputes the second segment's start from `parseTime "garbage" = 0`
(a one-field split returns `0`), yielding `"00:01:40"`. -/
theorem setStart_unparsable_still_mutates :
    handleStartTimeChange c9Videos [] 1 "garbage" =
      ([⟨1, "a", 100, "garbage"⟩, ⟨2, "b", 50, "00:01:40"⟩], []) ∧
    handleStartTimeChange c9Videos [] 1 "garbage" ≠ (c9Videos, []) := by
  have hf : formatTime (some ((100 : ℚ))) = "00:01:40" := by
    rw [formatTime_nonneg _ (by norm_num)]
    norm_num
    decide
  have h1 : handleStartTimeChange c9Videos [] 1 "garbage" =
      ([⟨1, "a", 100, "garbage"⟩,
        ⟨2, "b", 50, formatTime (jsAdd (parseTime "garbage") (some 100))⟩], []) := rfl
  have h2 : jsAdd (parseTime "garbage") (some 100) = some ((0 : ℚ) + 100) := rfl
  have h0100 : ((0 : ℚ) + 100) = 100 := by norm_num
  have hfull : handleStartTimeChange c9Videos [] 1 "garbage" =
      ([⟨1, "a", 100, "garbage"⟩, ⟨2, "b", 50, "00:01:40"⟩], []) := by
    rw [h1, h2, h0100, hf]
  refine ⟨hfull, ?_⟩
  rw [hfull]
  intro hcontra
  have hpr := congrArg (fun p => ((p.1.getD 0 default).startTime)) hcontra
  simp [c9Videos] at hpr

theorem setFirstStart_always_mutates_witness :
    (handleStartTimeChange c9Videos [] 1 "11:00:00").1.getD 0 default =
      ⟨1, "a", 100, "11:00:00"⟩ := by
  have h := setFirstStart_always_mutates c9Videos [] ⟨1, "a", 100, "10:00:00"⟩
    [⟨2, "b", 50, "10:01:40"⟩] rfl "11:00:00"
  exact h.2.1

/-! ## C10: the format/parse round trip -/

theorem stringDataAppend (a b : String) : (a ++ b).data = a.data ++ b.data := by
  cases a
  cases b
  rfl

theorem stringMkData (s : String) : String.mk s.data = s := by
  cases s
  rfl

theorem digitChar_isDigit {d : ℕ} (hd : d < 10) : (Nat.digitChar d).isDigit = true := by
  interval_cases d <;> decide

theorem digitVal_digitChar {d : ℕ} (hd : d < 10) : digitVal (Nat.digitChar d) = d := by
  interval_cases d <;> decide

theorem decimalVal_cons_zero (cs : List Char) : decimalVal ('0' :: cs) = decimalVal cs := rfl

theorem decimalVal_replicate_zero (k : ℕ) (cs : List Char) :
    decimalVal (List.replicate k '0' ++ cs) = decimalVal cs := by
  induction k with
  | zero => rfl
  | succ k ih => rw [List.replicate_succ, List.cons_append, decimalVal_cons_zero, ih]

theorem decimalVal_digits : ∀ (l : List ℕ), (∀ d ∈ l, d < 10) →
    decimalVal ((l.reverse).map Nat.digitChar) = Nat.ofDigits 10 l := by
  intro l
  induction l with
  | nil => intro _; rfl
  | cons d rest ih =>
      intro h
      have hd : d < 10 := h d (List.mem_cons_self d rest)
      rw [List.reverse_cons, List.map_append, decimalVal, List.foldl_append]
      show 10 * decimalVal ((rest.reverse).map Nat.digitChar) + digitVal (Nat.digitChar d)
        = Nat.ofDigits 10 (d :: rest)
      rw [ih (fun x hx => h x (List.mem_cons_of_mem d hx)), digitVal_digitChar hd,
        Nat.ofDigits_cons]
      ring

theorem decimalVal_natDecChars (n : ℕ) : decimalVal (natDecChars n) = n := by
  rw [natDecChars_eq_digits,
    decimalVal_digits (Nat.digits 10 n) (fun d hd => Nat.digits_lt_base (by norm_num) hd),
    Nat.ofDigits_digits]

theorem natDecChars_ne_nil {n : ℕ} (hn : n ≠ 0) : natDecChars n ≠ [] := by
  rw [natDecChars_eq_digits]
  simp [Nat.digits_ne_nil_iff_ne_zero, hn]

theorem natDecChars_all_digits (n : ℕ) : (natDecChars n).all Char.isDigit = true := by
  rw [natDecChars_eq_digits, List.all_eq_true]
  intro c hc
  rw [List.mem_map] at hc
  obtain ⟨d, hd, rfl⟩ := hc
  exact digitChar_isDigit (Nat.digits_lt_base (by norm_num) (List.mem_reverse.mp hd))

theorem natToString_ne_nil (n : ℕ) : (natToString n).data ≠ [] := by
  unfold natToString
  by_cases hn : n = 0
  · subst hn; decide
  · rw [if_neg hn]
    exact natDecChars_ne_nil hn

theorem natToString_all_digits (n : ℕ) : (natToString n).data.all Char.isDigit = true := by
  unfold natToString
  by_cases hn : n = 0
  · subst hn; decide
  · rw [if_neg hn]
    exact natDecChars_all_digits n

theorem decimalVal_natToString (m : ℕ) : decimalVal (natToString m).data = m := by
  unfold natToString
  by_cases hm : m = 0
  · subst hm; decide
  · rw [if_neg hm]
    exact decimalVal_natDecChars m

theorem padStart2_data (s : String) :
    (padStart2 s).data = List.replicate (2 - s.length) '0' ++ s.data := by
  unfold padStart2
  by_cases h : 2 ≤ s.length
  · rw [if_pos h]
    have h0 : 2 - s.length = 0 := by omega
    rw [h0, List.replicate_zero, List.nil_append]
  · rw [if_neg h]
    cases s
    rfl

theorem jsNumber_digits (s : String) (hne : s.data ≠ [])
    (hd : s.data.all Char.isDigit = true) :
    jsNumber s = some ((decimalVal s.data : ℕ) : ℚ) := by
  unfold jsNumber
  split
  · next heq => exact absurd heq hne
  · next rest heq =>
      rw [heq, List.all_cons] at hd
      simp at hd
  · rw [if_pos hd]

theorem padStart2_natToString_all_digits (m : ℕ) :
    (padStart2 (natToString m)).data.all Char.isDigit = true := by
  rw [padStart2_data, List.all_append, Bool.and_eq_true]
  refine ⟨?_, natToString_all_digits m⟩
  rw [List.all_eq_true]
  intro c hc
  rw [List.eq_of_mem_replicate hc]
  decide

theorem padStart2_natToString_ne_nil (m : ℕ) :
    (padStart2 (natToString m)).data ≠ [] := by
  rw [padStart2_data]
  intro hcontra
  exact natToString_ne_nil m (List.append_eq_nil.mp hcontra).2

theorem jsNumber_padStart2_natToString (m : ℕ) :
    jsNumber (padStart2 (natToString m)) = some ((m : ℕ) : ℚ) := by
  rw [jsNumber_digits _ (padStart2_natToString_ne_nil m) (padStart2_natToString_all_digits m),
    padStart2_data, decimalVal_replicate_zero, decimalVal_natToString]

theorem colon_not_mem_of_all_digits {l : List Char} (h : l.all Char.isDigit = true) :
    ':' ∉ l := by
  intro hm
  exact absurd (List.all_eq_true.mp h ':' hm) (by decide)

theorem splitCh_no_sep (sep : Char) : ∀ (cs : List Char), sep ∉ cs → splitCh sep cs = [cs]
  | [], _ => rfl
  | c :: cs, h => by
      have hc : ¬(c = sep) := fun hc => h (hc ▸ List.mem_cons_self c cs)
      have ih := splitCh_no_sep sep cs (fun hm => h (List.mem_cons_of_mem c hm))
      simp only [splitCh, if_neg hc, ih]

theorem splitCh_append_sep (sep : Char) : ∀ (a r : List Char), sep ∉ a →
    splitCh sep (a ++ sep :: r) = a :: splitCh sep r
  | [], r, _ => by simp [splitCh]
  | c :: a, r, h => by
      have hc : ¬(c = sep) := fun hc => h (hc ▸ List.mem_cons_self c a)
      have ih := splitCh_append_sep sep a r (fun hm => h (List.mem_cons_of_mem c hm))
      simp only [List.cons_append, splitCh, if_neg hc, List.append_eq, ih]

theorem jsSplit_three (A B C : String) (hA : ':' ∉ A.data) (hB : ':' ∉ B.data)
    (hC : ':' ∉ C.data) :
    jsSplit ':' (A ++ ":" ++ B ++ ":" ++ C) = [A, B, C] := by
  have hdata : (A ++ ":" ++ B ++ ":" ++ C).data
      = A.data ++ ':' :: (B.data ++ ':' :: C.data) := by
    simp only [stringDataAppend, List.append_assoc]
    rfl
  unfold jsSplit
  rw [hdata, splitCh_append_sep _ _ _ hA, splitCh_append_sep _ _ _ hB,
    splitCh_no_sep _ _ hC]
  simp only [List.map_cons, List.map_nil, stringMkData]

theorem natAbs_combo (A B C : ℤ) (hC : 0 ≤ C) (hB : 0 ≤ B - 60 * C)
    (hA : 0 ≤ A - 60 * B) :
    ((C.natAbs * 3600 + (B - 60 * C).natAbs * 60 + (A - 60 * B).natAbs : ℕ) : ℚ) = (A : ℚ) := by
  have h1 : ((C.natAbs : ℤ)) = C := Int.natAbs_of_nonneg hC
  have h2 : (((B - 60 * C).natAbs : ℤ)) = B - 60 * C := Int.natAbs_of_nonneg hB
  have h3 : (((A - 60 * B).natAbs : ℤ)) = A - 60 * B := Int.natAbs_of_nonneg hA
  have h4 : ((C.natAbs * 3600 + (B - 60 * C).natAbs * 60 + (A - 60 * B).natAbs : ℕ) : ℤ)
      = A := by
    push_cast [h1, h2, h3]
    ring
  have h5 : (((C.natAbs * 3600 + (B - 60 * C).natAbs * 60 + (A - 60 * B).natAbs : ℕ) : ℤ) : ℚ)
      = (A : ℚ) := by rw [h4]
  rw [← h5]
  norm_cast

/-- C10: for every non-negative rational number of seconds `q`,
`parseTime (formatTime q) = ⌊q⌋` — the formatter floors the three fields and
zero-pads them, the colon-split recovers exactly those fields, `Number`
reads the padded decimal strings back, and the weighted sum
`3600 * H + 60 * M + S` collapses to `⌊q⌋`; the hour field is unbounded, so
this holds beyond 24 hours. In particular format/parse is the identity on
every non-negative integer number of seconds. -/
theorem parse_format_roundtrip (q : ℚ) (hq : 0 ≤ q) :
    parseTime (formatTime (some q)) = some ((⌊q⌋ : ℤ) : ℚ) := by
  have h3600 : (0 : ℚ) < 3600 := by norm_num
  have h60 : (0 : ℚ) < 60 := by norm_num
  have hH0 : (0 : ℤ) ≤ ⌊q / 3600⌋ := Int.floor_nonneg.mpr (by positivity)
  have hmod36 : 0 ≤ q - 3600 * (⌊q / 3600⌋ : ℚ) := by
    have := Int.sub_floor_div_mul_nonneg q h3600
    linarith
  have hM0 : (0 : ℤ) ≤ ⌊(q - 3600 * (⌊q / 3600⌋ : ℚ)) / 60⌋ :=
    Int.floor_nonneg.mpr (by positivity)
  have hmod60 : 0 ≤ q - 60 * (⌊q / 60⌋ : ℚ) := by
    have := Int.sub_floor_div_mul_nonneg q h60
    linarith
  have hS0 : (0 : ℤ) ≤ ⌊q - 60 * (⌊q / 60⌋ : ℚ)⌋ := Int.floor_nonneg.mpr hmod60
  have hcolA := colon_not_mem_of_all_digits
    (padStart2_natToString_all_digits (⌊q / 3600⌋).natAbs)
  have hcolB := colon_not_mem_of_all_digits
    (padStart2_natToString_all_digits (⌊(q - 3600 * (⌊q / 3600⌋ : ℚ)) / 60⌋).natAbs)
  have hcolC := colon_not_mem_of_all_digits
    (padStart2_natToString_all_digits (⌊q - 60 * (⌊q / 60⌋ : ℚ)⌋).natAbs)
  rw [formatTime_nonneg q hq,
    parseTime_digits3 _ _ _ _ _ _ _ (jsSplit_three _ _ _ hcolA hcolB hcolC)
      (jsNumber_padStart2_natToString _) (jsNumber_padStart2_natToString _)
      (jsNumber_padStart2_natToString _)]
  have hMid : ⌊(q - 3600 * (⌊q / 3600⌋ : ℚ)) / 60⌋ = ⌊q / 60⌋ - 60 * ⌊q / 3600⌋ := by
    have hx : (q - 3600 * (⌊q / 3600⌋ : ℚ)) / 60 = q / 60 - ((60 * ⌊q / 3600⌋ : ℤ) : ℚ) := by
      push_cast
      ring
    rw [hx, Int.floor_sub_int]
  have hSid : ⌊q - 60 * (⌊q / 60⌋ : ℚ)⌋ = ⌊q⌋ - 60 * ⌊q / 60⌋ := by
    have hx : q - 60 * (⌊q / 60⌋ : ℚ) = q - ((60 * ⌊q / 60⌋ : ℤ) : ℚ) := by
      push_cast
      ring
    rw [hx, Int.floor_sub_int]
  congr 1
  rw [hMid] at hM0
  rw [hSid] at hS0
  rw [hMid, hSid]
  exact natAbs_combo (⌊q⌋) (⌊q / 60⌋) (⌊q / 3600⌋) hH0 hM0 hS0

theorem parse_format_roundtrip_witness :
    (0 : ℚ) ≤ (3725.5 : ℚ) ∧
      parseTime (formatTime (some (3725.5 : ℚ))) = some (((⌊(3725.5 : ℚ)⌋ : ℤ) : ℚ)) :=
  ⟨by norm_num, parse_format_roundtrip (3725.5 : ℚ) (by norm_num)⟩
